import Mathlib

/-!
Verification of the resource-teardown walker in
`src/clean-up/remove_resources.py` (class `ResourceCleaner`).

The SiteWise service is modelled as an explicit environment; every
service call issued by the cleaner is recorded as an event (`Ev`), so
ordering and counting claims become statements about event traces.
-/

/-- Service calls issued by `ResourceCleaner`, in the order the source
issues them.  `recordAsset` is the append to `asset_ids_to_delete`
performed at the top of `disassociate_all_assets` (line 108). -/
inductive Ev : Type where
  | recordAsset (assetId : String)
  | describeAsset (assetId : String)
  | listAssociated (assetId : String) (hierarchyId : String)
  | disassociateAssets (assetId : String) (hierarchyId : String) (childAssetId : String)
  | deleteAsset (assetId : String)
  | describeAssetModel (assetModelId : String)
  | updateAssetModel (assetModelId : String)
  | listAssets (assetModelId : String)
  | deleteAssetModel (assetModelId : String)
  | deleteComputationModel (computationModelId : String)
  | deleteTimeSeries (tsAlias : String)
deriving DecidableEq

/-- Python exceptions that can arise in the cleaner. -/
inductive PyExn : Type where
  /-- Raised `Exception(msg)` (line 102). -/
  | exception (msg : String)
  /-- attribute access on `None` (e.g. `response.get` when
  `describe_asset_model` returned `None` inside `wait_for_model_update`). -/
  | attributeError
  /-- subscripting `None` (e.g. `self.describe_asset(asset_id)["assetModelId"]`
  at line 373 when the asset is gone). -/
  | typeError
  /-- A `botocore` `ResourceNotFoundException` escaping a raw API call. -/
  | resourceNotFound (resource : String)
deriving DecidableEq

/-! ### The asset hierarchy seen by `disassociate_all_assets`

The service-side asset tree is given literally: a node carries the
asset id, the asset name, and its hierarchy slots
(`assetHierarchies`), each slot holding the children
`list_associated_assets` returns for it.  Mutual inductives are used
instead of nested `List`s so that all traversals are structural. -/

mutual
inductive ATree : Type where
  | node (id : String) (name : String) (hiers : HierList)
inductive HierList : Type where
  | nil
  | cons (hierarchyId : String) (children : TreeList) (rest : HierList)
inductive TreeList : Type where
  | nil
  | cons (t : ATree) (rest : TreeList)
end

/-- Root node id of a tree. -/
def ATree.rootId : ATree → String
  | .node i _ _ => i

/-- Disassociate events for the children of one hierarchy slot: the
source issues `disassociate_assets(asset_id, hierarchy_id, child_id)`
for each listed child (lines 128-137). -/
def disassocEvents (assetId hierarchyId : String) : TreeList → List Ev
  | .nil => []
  | .cons c cs =>
    Ev.disassociateAssets assetId hierarchyId c.rootId :: disassocEvents assetId hierarchyId cs

/-- Events of the hierarchy loop (lines 119-140): for each hierarchy
slot, one `list_associated_assets` call, then a disassociate call per
child.  No recursion into children happens here; the source only
accumulates them into `child_assets`. -/
def hierEvents (assetId : String) : HierList → List Ev
  | .nil => []
  | .cons hid cs rest =>
    Ev.listAssociated assetId hid :: (disassocEvents assetId hid cs ++ hierEvents assetId rest)

mutual
/-- Embeds `ResourceCleaner.disassociate_all_assets` (lines 106-147): append
the id to `asset_ids_to_delete`, describe the asset, loop over
hierarchy slots listing and disassociating children, then recurse into
the accumulated children in order. -/
def disassociate_all_assets : ATree → List Ev
  | .node i _ hs =>
    Ev.recordAsset i :: Ev.describeAsset i :: (hierEvents i hs ++ walkHiers hs)
/-- Recursion over the accumulated `child_assets` (lines 143-144); the
accumulated list is the concatenation of all hierarchy slots' children
in slot order. -/
def walkHiers : HierList → List Ev
  | .nil => []
  | .cons _ cs rest => walkTrees cs ++ walkHiers rest
def walkTrees : TreeList → List Ev
  | .nil => []
  | .cons t ts => disassociate_all_assets t ++ walkTrees ts
end

/-- The final contents of `self.asset_ids_to_delete` read off the
trace: the ids appended at line 108, in append order. -/
def recordedAssets (tr : List Ev) : List String :=
  tr.filterMap fun e =>
    match e with
    | Ev.recordAsset i => some i
    | _ => none

/-- Number of `disassociate_assets` calls in a trace. -/
def disassocCalls (tr : List Ev) : Nat :=
  tr.countP fun e =>
    match e with
    | Ev.disassociateAssets _ _ _ => true
    | _ => false

mutual
/-- Node ids of the tree in pre-order. -/
def ATree.nodeIds : ATree → List String
  | .node i _ hs => i :: hiersNodeIds hs
def hiersNodeIds : HierList → List String
  | .nil => []
  | .cons _ cs rest => treesNodeIds cs ++ hiersNodeIds rest
def treesNodeIds : TreeList → List String
  | .nil => []
  | .cons t ts => ATree.nodeIds t ++ treesNodeIds ts
end

/-- The concrete scenario: root `A` has one hierarchy with children
`B`, `C`; `B` has one child `D`. -/
def treeABCD : ATree :=
  ATree.node "A" "A"
    (HierList.cons "H1"
      (TreeList.cons
        (ATree.node "B" "B"
          (HierList.cons "H2" (TreeList.cons (ATree.node "D" "D" HierList.nil) TreeList.nil)
            HierList.nil))
        (TreeList.cons (ATree.node "C" "C" HierList.nil) TreeList.nil))
      HierList.nil)

example : recordedAssets (disassociate_all_assets treeABCD) = ["A", "B", "D", "C"] := by decide

example : disassocCalls (disassociate_all_assets treeABCD) = 3 := by decide

example : disassociate_all_assets treeABCD =
    [Ev.recordAsset "A", Ev.describeAsset "A", Ev.listAssociated "A" "H1",
     Ev.disassociateAssets "A" "H1" "B", Ev.disassociateAssets "A" "H1" "C",
     Ev.recordAsset "B", Ev.describeAsset "B", Ev.listAssociated "B" "H2",
     Ev.disassociateAssets "B" "H2" "D",
     Ev.recordAsset "D", Ev.describeAsset "D",
     Ev.recordAsset "C", Ev.describeAsset "C"] := rfl

/-! ### Asset-model update machinery
(`wait_for_model_update`, `remove_model_properties`) -/

/-- One `describe_asset_model` response observed while polling: the
`assetModelStatus.state` field, with the source's `"UNKNOWN"` default
already applied (line 97). -/
structure ModelPoll : Type where
  state : String
deriving DecidableEq

/-- One entry of a model's `assetModelHierarchies` list; the source
reads only `childAssetModelId` (line 161). -/
structure ModelHierarchyDef : Type where
  childAssetModelId : String
deriving DecidableEq

/-- The parts of a `describe_asset_model` response that
`remove_model_properties` reads (lines 156-162). -/
structure ModelDesc : Type where
  assetModelName : String
  assetModelHierarchies : List ModelHierarchyDef
deriving DecidableEq

/-- Environment for the model-stripping walk.  `describeModel` is the
outcome of `ResourceCleaner.describe_asset_model` outside the polling
loop (`none` = `ResourceNotFoundException`, which the helper turns
into `None`, lines 84-86).  `updatePolls` gives, per model id, the
successive `describe_asset_model` outcomes observed by
`wait_for_model_update` after `update_asset_model` was issued; `none`
entries are not-found responses. -/
structure ModelEnv : Type where
  describeModel : String → Option ModelDesc
  updatePolls : String → List (Option ModelPoll)

/-- Embeds `ResourceCleaner.wait_for_model_update` (lines 91-104) run against
a given list of successive describe outcomes.  The source loops
unboundedly; the result is `none` when the given observations run out
before a terminal observation (the real loop would keep polling).
`some (Except.ok true)` is `return True` on `"ACTIVE"`;
`some (Except.error _)` is a raised exception: `Exception("Asset model
update failed")` on `"FAILED"` (line 102), or an `AttributeError` when
a poll's describe returned `None` and the source evaluates
`response.get(...)` on it (line 97). -/
def wait_for_model_update : List (Option ModelPoll) → Option (Except PyExn Bool)
  | [] => none
  | p :: rest =>
    match p with
    | none => some (Except.error PyExn.attributeError)
    | some d =>
      if d.state = "ACTIVE" then some (Except.ok true)
      else if d.state = "FAILED" then
        some (Except.error (PyExn.exception "Asset model update failed"))
      else wait_for_model_update rest

/-- The deduplicated append to `asset_model_ids_to_delete`
(lines 165-166). -/
def pendAdd (pending : List String) (asset_model_id : String) : List String :=
  if asset_model_id ∈ pending then pending else pending ++ [asset_model_id]

/-- The child-model loop of `remove_model_properties` (lines 181-182):
process the captured child ids left to right, threading
`asset_model_ids_to_delete` and appending traces; each child call
handles its own exceptions, so the loop itself never raises.  `step` is
the recursive call at the next fuel level. -/
def rmpChildren (step : List String → String → Option (List String × List Ev × Option PyExn)) :
    List String → List String → Option (List String × List Ev)
  | pending, [] => some (pending, [])
  | pending, c :: cs =>
    match step pending c with
    | none => none
    | some (p', ctr', _) =>
      match rmpChildren step p' cs with
      | none => none
      | some (p2, tr2) => some (p2, ctr' ++ tr2)

/-- Embeds `ResourceCleaner.remove_model_properties` (lines 149-185), run
with explicit fuel for the recursion into child models (`none` =
fuel exhausted; the source recursion has no cycle guard).

Result: the final `asset_model_ids_to_delete`, the event trace, and —
third component — the exception caught and logged by the blanket
`except Exception` handler at line 184, if the body raised (`none`
when the body completed normally).  The handler never re-raises, so
every terminating run yields a normal return; in particular the
exception raised by `wait_for_model_update` on a `"FAILED"` state is
caught here and the child recursion for the branch is skipped. -/
def remove_model_properties (env : ModelEnv) :
    Nat → List String → String → Option (List String × List Ev × Option PyExn)
  | 0, _, _ => none
  | Nat.succ fuel, asset_model_ids_to_delete, asset_model_id =>
    match env.describeModel asset_model_id with
    | none =>
      -- `if not model_details: return` (lines 153-154)
      some (asset_model_ids_to_delete, [Ev.describeAssetModel asset_model_id], none)
    | some model_details =>
      -- child ids are captured from the pre-update describe (lines 159-162)
      let child_model_ids :=
        model_details.assetModelHierarchies.map fun h => h.childAssetModelId
      let pending := pendAdd asset_model_ids_to_delete asset_model_id
      let tr := [Ev.describeAssetModel asset_model_id, Ev.updateAssetModel asset_model_id]
      match wait_for_model_update (env.updatePolls asset_model_id) with
      | none => none
      | some (Except.error e) => some (pending, tr, some e)
      | some (Except.ok _) =>
        match rmpChildren (fun p c => remove_model_properties env fuel p c)
            pending child_model_ids with
        | none => none
        | some (p2, ctr) => some (p2, tr ++ ctr, none)

/-- Concrete environment: model `M1` (one hierarchy pointing at child
model `M2`) whose update polls straight to `FAILED`. -/
def envFail : ModelEnv where
  describeModel := fun mid =>
    if mid = "M1" then some ⟨"Model One", [⟨"M2"⟩]⟩ else none
  updatePolls := fun _ => [some ⟨"FAILED"⟩]

example : remove_model_properties envFail 1 [] "M1" =
    some (["M1"], [Ev.describeAssetModel "M1", Ev.updateAssetModel "M1"],
      some (PyExn.exception "Asset model update failed")) := rfl

/-- Concrete environment: model `M1` with child model `M2`; `M1`'s
update goes active after one intermediate poll, `M2` is absent. -/
def envM1M2 : ModelEnv where
  describeModel := fun mid =>
    if mid = "M1" then some ⟨"Model One", [⟨"M2"⟩]⟩ else none
  updatePolls := fun mid =>
    if mid = "M1" then [some ⟨"UPDATING"⟩, some ⟨"ACTIVE"⟩] else []

example : remove_model_properties envM1M2 2 [] "M1" =
    some (["M1"],
      [Ev.describeAssetModel "M1", Ev.updateAssetModel "M1", Ev.describeAssetModel "M2"],
      none) := rfl

/-! ### Deletion drains (`delete_assets`, `delete_asset_models`,
`_wait_for_assets_deletion`) -/

/-- Environment for the deletion drains.  `assetName` / `modelName`
are the outcomes of the describe helpers during the drain (`none` =
not found, the helper returns `None`).  `listAssetsAt mid i` is the
result of the `i`-th `list_assets(assetModelId=mid)` call inside
`_wait_for_assets_deletion` (`none` = the call raised, which the
source turns into `return False`, lines 239-240). -/
structure DrainEnv : Type where
  assetName : String → Option String
  modelName : String → Option String
  listAssetsAt : String → Nat → Option (List String)

/-- Embeds `ResourceCleaner.delete_assets` (lines 187-202): dedupe
`asset_ids_to_delete` (`list(set(...))`), then per id describe — a
not-found describe `continue`s — and delete. -/
def delete_assets (env : DrainEnv) (asset_ids_to_delete : List String) : List Ev :=
  asset_ids_to_delete.dedup.flatMap fun asset_id =>
    match env.assetName asset_id with
    | none => [Ev.describeAsset asset_id]
    | some _ => [Ev.describeAsset asset_id, Ev.deleteAsset asset_id]

/-- The loop body of `ResourceCleaner._wait_for_assets_deletion`
(lines 229-241): up to the given remaining budget, list the assets of
the model, keep those in the recorded pending set, succeed when none
remain; an exception in `list_assets` returns `False`.  First
component: the returned boolean; second: the `list_assets` calls
made. -/
def wait_for_assets_deletion_go (env : DrainEnv) (asset_ids_set : List String)
    (model_id : String) : Nat → Nat → Bool × List Ev
  | _, 0 => (false, [])
  | i, Nat.succ k =>
    match env.listAssetsAt model_id i with
    | none => (false, [Ev.listAssets model_id])
    | some summaries =>
      if summaries.filter (fun a => asset_ids_set.contains a) = [] then
        (true, [Ev.listAssets model_id])
      else
        let r := wait_for_assets_deletion_go env asset_ids_set model_id (i + 1) k
        (r.1, Ev.listAssets model_id :: r.2)

/-- Embeds `ResourceCleaner._wait_for_assets_deletion` (lines 224-242) with
its fixed retry budget `retries = 12` (line 227). -/
def wait_for_assets_deletion (env : DrainEnv) (asset_ids_to_delete : List String)
    (model_id : String) : Bool × List Ev :=
  wait_for_assets_deletion_go env asset_ids_to_delete model_id 0 12

/-- Embeds `ResourceCleaner.delete_asset_models` (lines 204-222): dedupe
`asset_model_ids_to_delete`, then per model id describe (a not-found
describe `continue`s), gate the delete on `_wait_for_assets_deletion`, and —
thanks to the per-model `try`/`except` — always continue to the next
model. -/
def delete_asset_models (env : DrainEnv) (asset_model_ids_to_delete : List String)
    (asset_ids_to_delete : List String) : List Ev :=
  asset_model_ids_to_delete.dedup.flatMap fun model_id =>
    match env.modelName model_id with
    | none => [Ev.describeAssetModel model_id]
    | some _ =>
      let w := wait_for_assets_deletion env asset_ids_to_delete model_id
      Ev.describeAssetModel model_id ::
        (w.2 ++ if w.1 then [Ev.deleteAssetModel model_id] else [])

/-! ### Data streams and computation models -/

/-- Python's substring test `needle in hay` on character lists. -/
def occursInChars (needle : List Char) : List Char → Bool
  | [] => needle.isEmpty
  | c :: rest => needle.isPrefixOf (c :: rest) || occursInChars needle rest

/-- Python's `needle in hay` on strings. -/
def pyIn (needle hay : String) : Bool :=
  occursInChars needle.data hay.data

/-- The source constant `DATA_STREAM_PREFIX` (line 48). -/
def DATA_STREAM_PATH : String := "/Tag Providers/AD/default/UR"

/-- Embeds `ResourceCleaner.delete_data_streams` (lines 294-311) applied to
the aliases returned by `_get_time_series_aliases`: the source deletes
an alias when `DATA_STREAM_PREFIX in alias`, i.e. on a *substring*
containment test (line 301). -/
def delete_data_streams (aliases : List String) : List Ev :=
  aliases.filterMap fun a =>
    if pyIn DATA_STREAM_PATH a then some (Ev.deleteTimeSeries a) else none

/-- Embeds `ResourceCleaner._get_computation_models_for_asset`
(lines 260-286): scan the listed ANOMALY_DETECTION computation-model
ids, resolve each one's backing asset id (`resolve`; `none` = the
inner lookup raised and the source `continue`s), keep those matching
`asset_id`. -/
def get_computation_models_for_asset (ids : List String)
    (resolve : String → Option String) (asset_id : String) : List String :=
  ids.filter fun mid => resolve mid = some asset_id

/-- Embeds `ResourceCleaner.delete_computation_models` (lines 244-258). -/
def delete_computation_models (ids : List String) (resolve : String → Option String)
    (asset_id : String) : List Ev :=
  (get_computation_models_for_asset ids resolve asset_id).map Ev.deleteComputationModel

/-! ### Top-level `cleanup` -/

/-- Environment for one full `cleanup` run.  Because the service is
mutated as the run proceeds, each phase reads its own view:
`externalAsset` is the raw `describe_asset("externalId:...")` in
`_get_asset_id_from_external_id` (`none` = `ResourceNotFoundException`
raised by the service — this call has *no* not-found handler);
`rootTree` is the hierarchy the disassociation walk sees (`none` = the
root describe inside `disassociate_all_assets` is not-found);
`assetModelOf` is the `describe_asset(asset_id)` helper outcome at
line 373, reduced to the `assetModelId` field it is subscripted for. -/
structure CleanupEnv : Type where
  externalAsset : String → Option String
  rootTree : String → Option ATree
  assetModelOf : String → Option String
  modelEnv : ModelEnv
  drainEnv : DrainEnv
  compModelIds : List String
  compModelAsset : String → Option String
  configAssetId : String
  tsAliases : List String

/-- Embeds `ResourceCleaner._get_asset_id_from_external_id` (lines 349-355):
a raw `describe_asset` call — a not-found root raises
`ResourceNotFoundException` out of the function. -/
def get_asset_id_from_external_id (env : CleanupEnv) (asset_external_id : String) :
    Except PyExn String :=
  match env.externalAsset asset_external_id with
  | none => Except.error (PyExn.resourceNotFound ("externalId:" ++ asset_external_id))
  | some asset_id => Except.ok asset_id

/-- Embeds `ResourceCleaner.cleanup` (lines 357-385): kill the simulator
process (local, no service call), resolve the root asset id, walk and
disassociate, delete computation models for the *configured* asset id,
strip the root's model chain, drain asset deletions, drain model
deletions, delete data streams.  `cleanup` itself has no exception
handler, so exceptions from the resolve step (not-found) or from
subscripting a `None` describe result at line 373 propagate to the
caller (`main`, which logs and re-raises).  `none` = fuel exhaustion
inside the model recursion. -/
def cleanup (env : CleanupEnv) (fuel : Nat) (asset_external_id : String) :
    Option (Except PyExn (List Ev)) :=
  match get_asset_id_from_external_id env asset_external_id with
  | Except.error e => some (Except.error e)
  | Except.ok asset_id =>
    let walkTr :=
      match env.rootTree asset_id with
      | some t => disassociate_all_assets t
      | none => [Ev.recordAsset asset_id, Ev.describeAsset asset_id]
    let asset_ids_to_delete := recordedAssets walkTr
    let compTr :=
      delete_computation_models env.compModelIds env.compModelAsset env.configAssetId
    match env.assetModelOf asset_id with
    | none => some (Except.error PyExn.typeError)
    | some asset_model_id =>
      match remove_model_properties env.modelEnv fuel [] asset_model_id with
      | none => none
      | some (asset_model_ids_to_delete, modelTr, _) =>
        some (Except.ok
          (walkTr ++ compTr ++ modelTr ++
            delete_assets env.drainEnv asset_ids_to_delete ++
            delete_asset_models env.drainEnv asset_model_ids_to_delete asset_ids_to_delete ++
            delete_data_streams env.tsAliases))

/-- A fully-cleaned environment: every lookup is not-found / empty. -/
def envGone : CleanupEnv where
  externalAsset := fun _ => none
  rootTree := fun _ => none
  assetModelOf := fun _ => none
  modelEnv := ⟨fun _ => none, fun _ => []⟩
  drainEnv := ⟨fun _ => none, fun _ => none, fun _ _ => none⟩
  compModelIds := []
  compModelAsset := fun _ => none
  configAssetId := "cfg-asset"
  tsAliases := []

example : cleanup envGone 1 "Workshop_Corporate_AnyCompany_AD" =
    some (Except.error
      (PyExn.resourceNotFound "externalId:Workshop_Corporate_AnyCompany_AD")) := rfl

/-! ### Tree measures: edges, child counts, depth, branching -/

/-- Number of children in one hierarchy slot. -/
def TreeList.len : TreeList → Nat
  | .nil => 0
  | .cons _ ts => TreeList.len ts + 1

/-- Total number of children an asset has across all its hierarchy
slots. -/
def hiersChildCount : HierList → Nat
  | .nil => 0
  | .cons _ cs rest => TreeList.len cs + hiersChildCount rest

/-- Direct parent-child edges `(parentId, hierarchyId, childId)` of one
hierarchy slot. -/
def directEdges (assetId hierarchyId : String) : TreeList → List (String × String × String)
  | .nil => []
  | .cons c cs => (assetId, hierarchyId, c.rootId) :: directEdges assetId hierarchyId cs

mutual
/-- All hierarchy-association edges of a tree. -/
def ATree.edges : ATree → List (String × String × String)
  | .node i _ hs => hiersEdges i hs
def hiersEdges : String → HierList → List (String × String × String)
  | _, .nil => []
  | i, .cons hid cs rest => directEdges i hid cs ++ (treesEdges cs ++ hiersEdges i rest)
def treesEdges : TreeList → List (String × String × String)
  | .nil => []
  | .cons t ts => ATree.edges t ++ treesEdges ts
end

mutual
/-- Depth of a tree in edges (a childless root has depth 0). -/
def ATree.depth : ATree → Nat
  | .node _ _ hs => hiersDepth hs
def hiersDepth : HierList → Nat
  | .nil => 0
  | .cons _ cs rest => max (treesDepth cs) (hiersDepth rest)
def treesDepth : TreeList → Nat
  | .nil => 0
  | .cons t ts => max (ATree.depth t + 1) (treesDepth ts)
end

mutual
/-- Whether some node of the tree has at least two children in total
(the tree branches). -/
def ATree.branches : ATree → Bool
  | .node _ _ hs => decide (2 ≤ hiersChildCount hs) || hiersAnyBranch hs
def hiersAnyBranch : HierList → Bool
  | .nil => false
  | .cons _ cs rest => treesAnyBranch cs || hiersAnyBranch rest
def treesAnyBranch : TreeList → Bool
  | .nil => false
  | .cons t ts => ATree.branches t || treesAnyBranch ts
end

/-! ### Walker lemmas -/

theorem recordedAssets_append (l₁ l₂ : List Ev) :
    recordedAssets (l₁ ++ l₂) = recordedAssets l₁ ++ recordedAssets l₂ := by
  simp [recordedAssets, List.filterMap_append]

theorem recordedAssets_cons_record (i : String) (tr : List Ev) :
    recordedAssets (Ev.recordAsset i :: tr) = i :: recordedAssets tr := rfl

theorem recordedAssets_cons_describe (i : String) (tr : List Ev) :
    recordedAssets (Ev.describeAsset i :: tr) = recordedAssets tr := rfl

theorem recordedAssets_cons_listAssociated (i h : String) (tr : List Ev) :
    recordedAssets (Ev.listAssociated i h :: tr) = recordedAssets tr := rfl

theorem recordedAssets_cons_disassociate (i h c : String) (tr : List Ev) :
    recordedAssets (Ev.disassociateAssets i h c :: tr) = recordedAssets tr := rfl

theorem recordedAssets_disassocEvents (i h : String) :
    (ts : TreeList) → recordedAssets (disassocEvents i h ts) = []
  | .nil => rfl
  | .cons c cs => by
    show recordedAssets (Ev.disassociateAssets i h c.rootId :: disassocEvents i h cs) = []
    rw [recordedAssets_cons_disassociate, recordedAssets_disassocEvents i h cs]

theorem recordedAssets_hierEvents (i : String) :
    (hs : HierList) → recordedAssets (hierEvents i hs) = []
  | .nil => rfl
  | .cons hid cs rest => by
    show recordedAssets
        (Ev.listAssociated i hid :: (disassocEvents i hid cs ++ hierEvents i rest)) = []
    rw [recordedAssets_cons_listAssociated, recordedAssets_append,
      recordedAssets_disassocEvents i hid cs, recordedAssets_hierEvents i rest]
    rfl

mutual
/-- The ids appended to `asset_ids_to_delete` by the walk are exactly
the tree's node ids, in pre-order. -/
theorem recordedAssets_walk : (t : ATree) →
    recordedAssets (disassociate_all_assets t) = t.nodeIds
  | .node i n hs => by
    show recordedAssets
        (Ev.recordAsset i :: Ev.describeAsset i :: (hierEvents i hs ++ walkHiers hs)) =
      i :: hiersNodeIds hs
    rw [recordedAssets_cons_record, recordedAssets_cons_describe, recordedAssets_append,
      recordedAssets_hierEvents i hs, recordedAssets_walkHiers hs]
    rfl
theorem recordedAssets_walkHiers : (hs : HierList) →
    recordedAssets (walkHiers hs) = hiersNodeIds hs
  | .nil => rfl
  | .cons hid cs rest => by
    show recordedAssets (walkTrees cs ++ walkHiers rest) = treesNodeIds cs ++ hiersNodeIds rest
    rw [recordedAssets_append, recordedAssets_walkTrees cs, recordedAssets_walkHiers rest]
theorem recordedAssets_walkTrees : (ts : TreeList) →
    recordedAssets (walkTrees ts) = treesNodeIds ts
  | .nil => rfl
  | .cons t ts => by
    show recordedAssets (disassociate_all_assets t ++ walkTrees ts) =
      ATree.nodeIds t ++ treesNodeIds ts
    rw [recordedAssets_append, recordedAssets_walk t, recordedAssets_walkTrees ts]
end

/-- Every walk starts by recording the root (line 108 runs first). -/
theorem walk_head : (t : ATree) → ∃ rest,
    disassociate_all_assets t = Ev.recordAsset t.rootId :: rest
  | .node i _ hs =>
    ⟨Ev.describeAsset i :: (hierEvents i hs ++ walkHiers hs), rfl⟩

/-- A direct edge of a slot yields its disassociate event in that
slot's disassociate events and a record event for the child inside the
walk of the slot's children. -/
theorem directEdges_events (i hid : String) : (ts : TreeList) → ∀ p h c : String,
    (p, h, c) ∈ directEdges i hid ts →
    Ev.disassociateAssets p h c ∈ disassocEvents i hid ts ∧
      Ev.recordAsset c ∈ walkTrees ts
  | .nil => by intro p h c hm; simp [directEdges] at hm
  | .cons t ts => by
    intro p h c hm
    show Ev.disassociateAssets p h c ∈
        Ev.disassociateAssets i hid t.rootId :: disassocEvents i hid ts ∧
      Ev.recordAsset c ∈ disassociate_all_assets t ++ walkTrees ts
    rcases List.mem_cons.1 hm with h1 | h1
    · injection h1 with hp rest
      injection rest with hh hc
      subst hp; subst hh; subst hc
      refine ⟨List.mem_cons_self _ _, ?_⟩
      obtain ⟨rest, hw⟩ := walk_head t
      rw [hw]
      exact List.mem_append_left _ (List.mem_cons_self _ _)
    · obtain ⟨hd, hr⟩ := directEdges_events i hid ts p h c h1
      exact ⟨List.mem_cons_of_mem _ hd, List.mem_append_right _ hr⟩

mutual
/-- Ordering invariant of the walk: for every hierarchy edge of the
tree, the disassociate call for that edge occurs in the trace strictly
before the record event that starts the child's own recursive visit. -/
theorem edge_sublist_walk : (t : ATree) → ∀ p h c : String, (p, h, c) ∈ t.edges →
    [Ev.disassociateAssets p h c, Ev.recordAsset c].Sublist (disassociate_all_assets t)
  | .node i n hs => by
    intro p h c hm
    show List.Sublist _
      (Ev.recordAsset i :: Ev.describeAsset i :: (hierEvents i hs ++ walkHiers hs))
    exact ((edge_sublist_hiers i hs p h c hm).cons _).cons _
theorem edge_sublist_hiers : (i : String) → (hs : HierList) → ∀ p h c : String,
    (p, h, c) ∈ hiersEdges i hs →
    [Ev.disassociateAssets p h c, Ev.recordAsset c].Sublist
      (hierEvents i hs ++ walkHiers hs)
  | i, .nil => by intro p h c hm; simp [hiersEdges] at hm
  | i, .cons hid cs rest => by
    intro p h c hm
    show List.Sublist _
      ((Ev.listAssociated i hid :: (disassocEvents i hid cs ++ hierEvents i rest)) ++
        (walkTrees cs ++ walkHiers rest))
    rw [List.cons_append]
    refine List.Sublist.cons _ ?_
    rcases List.mem_append.1 hm with h1 | h12
    · -- a direct edge of this slot
      obtain ⟨hd, hr⟩ := directEdges_events i hid cs p h c h1
      have s1 : [Ev.disassociateAssets p h c].Sublist (disassocEvents i hid cs ++ hierEvents i rest) :=
        (List.singleton_sublist.2 hd).trans (List.sublist_append_left _ _)
      have s2 : [Ev.recordAsset c].Sublist (walkTrees cs ++ walkHiers rest) :=
        (List.singleton_sublist.2 hr).trans (List.sublist_append_left _ _)
      exact s1.append s2
    · rcases List.mem_append.1 h12 with h2 | h3
      · -- an edge inside one of this slot's subtrees
        have s := edge_sublist_trees cs p h c h2
        exact (s.trans (List.sublist_append_left _ (walkHiers rest))).trans
          (List.sublist_append_right (disassocEvents i hid cs ++ hierEvents i rest) _)
      · -- an edge of a later slot
        have s := edge_sublist_hiers i rest p h c h3
        exact s.trans ((List.sublist_append_right (disassocEvents i hid cs) _).append
          (List.sublist_append_right (walkTrees cs) _))
theorem edge_sublist_trees : (ts : TreeList) → ∀ p h c : String,
    (p, h, c) ∈ treesEdges ts →
    [Ev.disassociateAssets p h c, Ev.recordAsset c].Sublist (walkTrees ts)
  | .nil => by intro p h c hm; simp [treesEdges] at hm
  | .cons t ts => by
    intro p h c hm
    show List.Sublist _ (disassociate_all_assets t ++ walkTrees ts)
    rcases List.mem_append.1 hm with h1 | h1
    · exact (edge_sublist_walk t p h c h1).trans (List.sublist_append_left _ _)
    · exact (edge_sublist_trees ts p h c h1).trans (List.sublist_append_right _ _)
end

/-- Converse of `directEdges_events` for single slots: a disassociate
event of a slot's event list is a direct edge of that slot. -/
theorem disassocEvents_mem_edges (i hid : String) : (ts : TreeList) → ∀ p h c : String,
    Ev.disassociateAssets p h c ∈ disassocEvents i hid ts →
    (p, h, c) ∈ directEdges i hid ts
  | .nil => by intro p h c hm; simp [disassocEvents] at hm
  | .cons t ts => by
    intro p h c hm
    have hm' : Ev.disassociateAssets p h c ∈
        Ev.disassociateAssets i hid t.rootId :: disassocEvents i hid ts := hm
    show (p, h, c) ∈ (i, hid, t.rootId) :: directEdges i hid ts
    rcases List.mem_cons.1 hm' with h1 | h1
    · injection h1 with hp hh hc
      subst hp; subst hh; subst hc
      exact List.mem_cons_self _ _
    · exact List.mem_cons_of_mem _ (disassocEvents_mem_edges i hid ts p h c h1)

/-- A disassociate event inside `hierEvents` comes from a direct edge
of one of the slots. -/
theorem hierEvents_mem_edges (i : String) : (hs : HierList) → ∀ p h c : String,
    Ev.disassociateAssets p h c ∈ hierEvents i hs → (p, h, c) ∈ hiersEdges i hs
  | .nil => by intro p h c hm; simp [hierEvents] at hm
  | .cons hid cs rest => by
    intro p h c hm
    have hm' : Ev.disassociateAssets p h c ∈
        Ev.listAssociated i hid :: (disassocEvents i hid cs ++ hierEvents i rest) := hm
    show (p, h, c) ∈ directEdges i hid cs ++ (treesEdges cs ++ hiersEdges i rest)
    rcases List.mem_cons.1 hm' with h1 | h1
    · exact absurd h1 (by simp)
    · rcases List.mem_append.1 h1 with h2 | h2
      · exact List.mem_append_left _ (disassocEvents_mem_edges i hid cs p h c h2)
      · exact List.mem_append_right _
          (List.mem_append_right _ (hierEvents_mem_edges i rest p h c h2))

mutual
/-- Every disassociate call issued by the walk cuts an actual edge of
the tree; in particular a hierarchy slot with zero children never
causes a disassociate call. -/
theorem walk_disassoc_mem_edges : (t : ATree) → ∀ p h c : String,
    Ev.disassociateAssets p h c ∈ disassociate_all_assets t → (p, h, c) ∈ t.edges
  | .node i n hs => by
    intro p h c hm
    have hm' : Ev.disassociateAssets p h c ∈
        Ev.recordAsset i :: Ev.describeAsset i :: (hierEvents i hs ++ walkHiers hs) := hm
    show (p, h, c) ∈ hiersEdges i hs
    rcases List.mem_cons.1 hm' with h1 | h1
    · exact absurd h1 (by simp)
    · rcases List.mem_cons.1 h1 with h2 | h2
      · exact absurd h2 (by simp)
      · rcases List.mem_append.1 h2 with h3 | h3
        · exact hierEvents_mem_edges i hs p h c h3
        · exact walkHiers_disassoc_mem_edges hs p h c h3 i
theorem walkHiers_disassoc_mem_edges : (hs : HierList) → ∀ p h c : String,
    Ev.disassociateAssets p h c ∈ walkHiers hs → ∀ i, (p, h, c) ∈ hiersEdges i hs
  | .nil => by intro p h c hm; simp [walkHiers] at hm
  | .cons hid cs rest => by
    intro p h c hm i
    have hm' : Ev.disassociateAssets p h c ∈ walkTrees cs ++ walkHiers rest := hm
    show (p, h, c) ∈ directEdges i hid cs ++ (treesEdges cs ++ hiersEdges i rest)
    rcases List.mem_append.1 hm' with h1 | h1
    · exact List.mem_append_right _
        (List.mem_append_left _ (walkTrees_disassoc_mem_edges cs p h c h1))
    · exact List.mem_append_right _
        (List.mem_append_right _ (walkHiers_disassoc_mem_edges rest p h c h1 i))
theorem walkTrees_disassoc_mem_edges : (ts : TreeList) → ∀ p h c : String,
    Ev.disassociateAssets p h c ∈ walkTrees ts → (p, h, c) ∈ treesEdges ts
  | .nil => by intro p h c hm; simp [walkTrees] at hm
  | .cons t ts => by
    intro p h c hm
    have hm' : Ev.disassociateAssets p h c ∈ disassociate_all_assets t ++ walkTrees ts := hm
    show (p, h, c) ∈ ATree.edges t ++ treesEdges ts
    rcases List.mem_append.1 hm' with h1 | h1
    · exact List.mem_append_left _ (walk_disassoc_mem_edges t p h c h1)
    · exact List.mem_append_right _ (walkTrees_disassoc_mem_edges ts p h c h1)
end

/-- A slot list with zero children in total is all-empty slots. -/
theorem len_eq_zero : (ts : TreeList) → TreeList.len ts = 0 → ts = TreeList.nil
  | .nil, _ => rfl
  | .cons _ _, h => by simp [TreeList.len] at h

/-- An asset with zero children across all its hierarchy slots causes
no recursion: the walks of its slots contribute nothing. -/
theorem walkHiers_childfree : (hs : HierList) → hiersChildCount hs = 0 →
    walkHiers hs = []
  | .nil, _ => rfl
  | .cons hid cs rest, h => by
    have hc : TreeList.len cs = 0 ∧ hiersChildCount rest = 0 := by
      simpa [hiersChildCount, Nat.add_eq_zero] using h
    have hcs := len_eq_zero cs hc.1
    subst hcs
    show walkTrees TreeList.nil ++ walkHiers rest = []
    rw [walkHiers_childfree rest hc.2]
    rfl

/-- An asset with zero children issues no disassociate calls from its
own hierarchy loop. -/
theorem hierEvents_childfree (i : String) : (hs : HierList) → hiersChildCount hs = 0 →
    ∀ p h c, Ev.disassociateAssets p h c ∉ hierEvents i hs
  | .nil, _ => by intro p h c hm; simp [hierEvents] at hm
  | .cons hid cs rest, hz => by
    intro p h c hm
    have hc : TreeList.len cs = 0 ∧ hiersChildCount rest = 0 := by
      simpa [hiersChildCount, Nat.add_eq_zero] using hz
    have hcs := len_eq_zero cs hc.1
    subst hcs
    have hm' : Ev.disassociateAssets p h c ∈
        Ev.listAssociated i hid :: (disassocEvents i hid TreeList.nil ++ hierEvents i rest) := hm
    rcases List.mem_cons.1 hm' with h1 | h1
    · exact absurd h1 (by simp)
    · have h2 : Ev.disassociateAssets p h c ∈ hierEvents i rest := by
        simpa [disassocEvents] using h1
      exact hierEvents_childfree i rest hc.2 p h c h2

/-! ### Lemmas about `remove_model_properties` -/

/-- A terminating `remove_model_properties` run always opens its trace
with the describe of its own model id. -/
theorem rmp_trace_head (env : ModelEnv) (fuel : Nat) (pending : List String)
    (mid : String) (res : List String × List Ev × Option PyExn)
    (hrun : remove_model_properties env fuel pending mid = some res) :
    ∃ tl, res.2.1 = Ev.describeAssetModel mid :: tl := by
  cases fuel with
  | zero => exact absurd hrun (by simp [remove_model_properties])
  | succ fuel =>
    simp only [remove_model_properties] at hrun
    split at hrun
    · cases hrun
      exact ⟨[], rfl⟩
    · split at hrun
      · exact absurd hrun (by simp)
      · cases hrun
        exact ⟨[Ev.updateAssetModel mid], rfl⟩
      · split at hrun
        · exact absurd hrun (by simp)
        · cases hrun
          exact ⟨Ev.updateAssetModel mid :: _, rfl⟩

/-- If every child call opens its trace with its own describe, a
successful run of the child loop has a describe event for every
child in its trace. -/
theorem rmpChildren_describe_mem
    (step : List String → String → Option (List String × List Ev × Option PyExn))
    (hstep : ∀ p c res, step p c = some res → Ev.describeAssetModel c ∈ res.2.1)
    (cs : List String) :
    ∀ (pending p2 : List String) (tr2 : List Ev),
      rmpChildren step pending cs = some (p2, tr2) →
      ∀ c ∈ cs, Ev.describeAssetModel c ∈ tr2 := by
  induction cs with
  | nil => intro pending p2 tr2 _ c hc; simp at hc
  | cons c' cs ih =>
    intro pending p2 tr2 hrun c hc
    simp only [rmpChildren] at hrun
    split at hrun
    · exact absurd hrun (by simp)
    · rename_i p' ctr' ex hstep'
      split at hrun
      · exact absurd hrun (by simp)
      · rename_i p2' tr2' hrec
        cases hrun
        rcases List.mem_cons.1 hc with h1 | h1
        · subst h1
          exact List.mem_append_left _ (hstep _ _ _ hstep')
        · exact List.mem_append_right _ (ih p' _ _ hrec c h1)

/-! ### Lemmas about `_wait_for_assets_deletion` -/

/-- When every poll in the remaining budget lists assets that still
intersect the recorded set, the loop exhausts the budget and gives
up with `false`, making one `list_assets` call per attempt. -/
theorem waitgo_false (env : DrainEnv) (S : List String) (mid : String) :
    ∀ (b i : Nat),
      (∀ j, j < b → ∃ lj, env.listAssetsAt mid (i + j) = some lj ∧
        lj.filter (fun a => S.contains a) ≠ []) →
      wait_for_assets_deletion_go env S mid i b =
        (false, List.replicate b (Ev.listAssets mid)) := by
  intro b
  induction b with
  | zero => intro i _; rfl
  | succ b ih =>
    intro i hall
    obtain ⟨l0, hl0, hne⟩ := hall 0 (Nat.succ_pos b)
    rw [Nat.add_zero] at hl0
    have hrest : ∀ j, j < b → ∃ lj, env.listAssetsAt mid ((i + 1) + j) = some lj ∧
        lj.filter (fun a => S.contains a) ≠ [] := by
      intro j hj
      have := hall (j + 1) (Nat.succ_lt_succ hj)
      rwa [show i + (j + 1) = (i + 1) + j by omega] at this
    show (match env.listAssetsAt mid i with
      | none => (false, [Ev.listAssets mid])
      | some summaries =>
        if summaries.filter (fun a => S.contains a) = [] then
          (true, [Ev.listAssets mid])
        else
          let r := wait_for_assets_deletion_go env S mid (i + 1) b
          (r.1, Ev.listAssets mid :: r.2)) =
      (false, List.replicate (b + 1) (Ev.listAssets mid))
    rw [hl0]
    simp only [hne, if_false, ih (i + 1) hrest, List.replicate_succ]

/-- The loop returns `true` as soon as a poll's intersection with the
recorded set is empty: if the first `k` polls still intersect and poll
`k` (within budget) does not, the loop stops with `true` after exactly
`k + 1` `list_assets` calls. -/
theorem waitgo_true (env : DrainEnv) (S : List String) (mid : String) :
    ∀ (k b i : Nat) (lk : List String), k < b →
      (∀ j, j < k → ∃ lj, env.listAssetsAt mid (i + j) = some lj ∧
        lj.filter (fun a => S.contains a) ≠ []) →
      env.listAssetsAt mid (i + k) = some lk →
      lk.filter (fun a => S.contains a) = [] →
      wait_for_assets_deletion_go env S mid i b =
        (true, List.replicate (k + 1) (Ev.listAssets mid)) := by
  intro k
  induction k with
  | zero =>
    intro b i lk hkb _ hlk hempty
    obtain ⟨b', rfl⟩ := Nat.exists_eq_succ_of_ne_zero (Nat.pos_iff_ne_zero.1 hkb)
    rw [Nat.add_zero] at hlk
    show (match env.listAssetsAt mid i with
      | none => (false, [Ev.listAssets mid])
      | some summaries =>
        if summaries.filter (fun a => S.contains a) = [] then
          (true, [Ev.listAssets mid])
        else
          let r := wait_for_assets_deletion_go env S mid (i + 1) b'
          (r.1, Ev.listAssets mid :: r.2)) =
      (true, List.replicate 1 (Ev.listAssets mid))
    rw [hlk]
    simp only [hempty, if_true]
    rfl
  | succ k ih =>
    intro b i lk hkb hpre hlk hempty
    obtain ⟨b', rfl⟩ := Nat.exists_eq_succ_of_ne_zero
      (Nat.pos_iff_ne_zero.1 (Nat.lt_of_le_of_lt (Nat.zero_le _) hkb))
    obtain ⟨l0, hl0, hne⟩ := hpre 0 (Nat.succ_pos k)
    rw [Nat.add_zero] at hl0
    have hpre' : ∀ j, j < k → ∃ lj, env.listAssetsAt mid ((i + 1) + j) = some lj ∧
        lj.filter (fun a => S.contains a) ≠ [] := by
      intro j hj
      have := hpre (j + 1) (Nat.succ_lt_succ hj)
      rwa [show i + (j + 1) = (i + 1) + j by omega] at this
    have hlk' : env.listAssetsAt mid ((i + 1) + k) = some lk := by
      rwa [show i + (k + 1) = (i + 1) + k by omega] at hlk
    show (match env.listAssetsAt mid i with
      | none => (false, [Ev.listAssets mid])
      | some summaries =>
        if summaries.filter (fun a => S.contains a) = [] then
          (true, [Ev.listAssets mid])
        else
          let r := wait_for_assets_deletion_go env S mid (i + 1) b'
          (r.1, Ev.listAssets mid :: r.2)) =
      (true, List.replicate (k + 1 + 1) (Ev.listAssets mid))
    rw [hl0]
    simp only [hne, if_false,
      ih b' (i + 1) lk (Nat.lt_of_succ_lt_succ hkb) hpre' hlk' hempty,
      List.replicate_succ]

/-- Every event the wait loop emits is a `list_assets` call for the
model it was asked about. -/
theorem waitgo_events (env : DrainEnv) (S : List String) (mid : String) :
    ∀ (b i : Nat), ∀ e ∈ (wait_for_assets_deletion_go env S mid i b).2,
      e = Ev.listAssets mid := by
  intro b
  induction b with
  | zero => intro i e he; simp [wait_for_assets_deletion_go] at he
  | succ b ih =>
    intro i e he
    simp only [wait_for_assets_deletion_go] at he
    split at he
    · simpa using he
    · split at he
      · simpa using he
      · rcases List.mem_cons.1 he with h1 | h1
        · exact h1
        · exact ih (i + 1) e h1

/-! ### Generic drain lemmas -/

/-- The per-id block of a member of a list is a sublist of the
flat-mapped drain trace. -/
theorem sublist_flatMap_of_mem {α β : Type} (f : α → List β) :
    ∀ (l : List α) (a : α), a ∈ l → List.Sublist (f a) (l.flatMap f)
  | [], a, ha => absurd ha (by simp)
  | x :: xs, a, ha => by
    rcases List.mem_cons.1 ha with h1 | h1
    · subst h1
      exact List.sublist_append_left _ _
    · exact (sublist_flatMap_of_mem f xs a h1).trans (List.sublist_append_right _ _)

/-- Counting an event across a deduplicated drain: when only the block
of `aid` can contain the event, the total count is the count within
that block. -/
theorem count_flatMap_single (f : String → List Ev) (e : Ev) (aid : String) :
    ∀ (l : List String), l.Nodup → aid ∈ l →
      (∀ m ∈ l, m ≠ aid → e ∉ f m) →
      (l.flatMap f).count e = (f aid).count e
  | [], _, hmem, _ => absurd hmem (by simp)
  | x :: xs, hnd, hmem, hother => by
    rw [List.flatMap_cons, List.count_append]
    rcases List.mem_cons.1 hmem with h1 | h1
    · subst h1
      have hnotail : e ∉ xs.flatMap f := by
        intro hmem'
        obtain ⟨m, hm, hem⟩ := List.mem_flatMap.1 hmem'
        have hne : m ≠ aid := fun hmeq => (List.nodup_cons.1 hnd).1 (hmeq ▸ hm)
        exact hother m (List.mem_cons_of_mem _ hm) hne hem
      rw [List.count_eq_zero_of_not_mem hnotail]
      omega
    · have hxne : x ≠ aid := fun hxeq =>
        (List.nodup_cons.1 hnd).1 (hxeq ▸ h1)
      have hzero : e ∉ f x := hother x (List.mem_cons_self _ _) hxne
      rw [List.count_eq_zero_of_not_mem hzero,
        count_flatMap_single f e aid xs (List.nodup_cons.1 hnd).2 h1
          (fun m hm => hother m (List.mem_cons_of_mem _ hm))]
      omega

/-! ### Concrete environments used by witnesses -/

/-- Drain environment in which every asset/model exists and the first
`list_assets` poll already shows no remaining assets. -/
def envDrainOk : DrainEnv where
  assetName := fun _ => some "Asset"
  modelName := fun _ => some "Model"
  listAssetsAt := fun _ _ => some []

/-- Drain environment in which every `list_assets` poll keeps
returning asset `A1`. -/
def envDrainBusy : DrainEnv where
  assetName := fun _ => none
  modelName := fun _ => some "Model"
  listAssetsAt := fun _ _ => some ["A1"]

/-- Drain environment with asset `A` and model `M` present. -/
def envDrainW : DrainEnv where
  assetName := fun a => if a = "A" then some "Asset A" else none
  modelName := fun m => if m = "M" then some "Model M" else none
  listAssetsAt := fun _ _ => some []

/-! ### The claims -/

/-- C10: `wait_for_model_update` requires the asset model to exist at
every poll — a not-found describe during the polling loop (the helper
returns the absent marker) makes the loop raise (attribute access on
the absent result) rather than return a boolean, so the not-found
branch inside the loop is not handled as a benign skip. -/
theorem wait_for_model_update_notfound_raises
    (pre post : List (Option ModelPoll))
    (hpre : ∀ p ∈ pre, match p with
      | some d => d.state ≠ "ACTIVE" ∧ d.state ≠ "FAILED"
      | none => False) :
    wait_for_model_update (pre ++ none :: post) =
      some (Except.error PyExn.attributeError) := by
  induction pre with
  | nil => rfl
  | cons p pre ih =>
    match p, hpre p (List.mem_cons_self _ _) with
    | some d, ⟨hA, hF⟩ =>
      show wait_for_model_update (some d :: (pre ++ none :: post)) = _
      simp only [wait_for_model_update, if_neg hA, if_neg hF]
      exact ih fun q hq => hpre q (List.mem_cons_of_mem _ hq)

/-- Witness for C10 at a concrete poll sequence. -/
theorem wait_for_model_update_notfound_raises_witness :
    wait_for_model_update [some ⟨"UPDATING"⟩, none] =
      some (Except.error PyExn.attributeError) :=
  wait_for_model_update_notfound_raises [some ⟨"UPDATING"⟩] []
    (fun p hp => by
      simp only [List.mem_singleton] at hp
      subst hp
      exact ⟨by decide, by decide⟩)

/-- C1 counterexample: with model `M1` whose update polls straight to
`FAILED`, `remove_model_properties` returns a normal result to its
caller; the failure exception appears as the one caught and logged by
its own blanket handler (third component), so the condition is *not*
raised out of `remove_model_properties`. -/
theorem remove_model_properties_failed_not_raised_cex :
    remove_model_properties envFail 1 [] "M1" =
      some (["M1"], [Ev.describeAssetModel "M1", Ev.updateAssetModel "M1"],
        some (PyExn.exception "Asset model update failed")) := rfl

/-- C1 (amended): when the polled update reaches `FAILED`,
`wait_for_model_update` raises `Exception("Asset model update
failed")`; `remove_model_properties` catches and logs it in its
blanket handler, skips the child recursion for that branch, and
returns normally to its caller. -/
theorem remove_model_properties_failed_update_caught
    (env : ModelEnv) (fuel : Nat) (pending : List String) (mid : String) (d : ModelDesc)
    (hd : env.describeModel mid = some d)
    (hw : wait_for_model_update (env.updatePolls mid) =
      some (Except.error (PyExn.exception "Asset model update failed"))) :
    remove_model_properties env (fuel + 1) pending mid =
      some (pendAdd pending mid,
        [Ev.describeAssetModel mid, Ev.updateAssetModel mid],
        some (PyExn.exception "Asset model update failed")) := by
  simp only [remove_model_properties, hd, hw]

/-- Witness for C1's amended theorem at `envFail`. -/
theorem remove_model_properties_failed_update_caught_witness :
    remove_model_properties envFail (0 + 1) [] "M1" =
      some (pendAdd [] "M1",
        [Ev.describeAssetModel "M1", Ev.updateAssetModel "M1"],
        some (PyExn.exception "Asset model update failed")) :=
  remove_model_properties_failed_update_caught envFail 0 [] "M1"
    ⟨"Model One", [⟨"M2"⟩]⟩ rfl rfl

/-- C6: `remove_model_properties` reads the child-model ids from the
pre-update describe, issues the destructive update as its second call,
recurses only into those previously captured child ids, and does so
only when the polled update reached the active state; if the wait
raised instead, no child is visited. -/
theorem remove_model_properties_captures_children_first
    (env : ModelEnv) (fuel : Nat) (pending : List String) (mid : String) (d : ModelDesc)
    (p' : List String) (tr : List Ev) (ex : Option PyExn)
    (hd : env.describeModel mid = some d)
    (hrun : remove_model_properties env (fuel + 1) pending mid = some (p', tr, ex)) :
    tr.take 2 = [Ev.describeAssetModel mid, Ev.updateAssetModel mid] ∧
    ((∃ e, wait_for_model_update (env.updatePolls mid) = some (Except.error e)) →
      tr = [Ev.describeAssetModel mid, Ev.updateAssetModel mid]) ∧
    (∀ b, wait_for_model_update (env.updatePolls mid) = some (Except.ok b) →
      ∀ h ∈ d.assetModelHierarchies,
        Ev.describeAssetModel h.childAssetModelId ∈ tr ∧
        [Ev.updateAssetModel mid, Ev.describeAssetModel h.childAssetModelId].Sublist tr) := by
  simp only [remove_model_properties, hd] at hrun
  split at hrun
  · exact absurd hrun (by simp)
  · rename_i e hwc
    cases hrun
    refine ⟨rfl, fun _ => rfl, fun b hb => ?_⟩
    rw [hwc] at hb
    exact absurd hb (by simp)
  · rename_i b0 hwc
    split at hrun
    · exact absurd hrun (by simp)
    · rename_i p2 ctr hchildren
      cases hrun
      have hstep : ∀ p c res,
          remove_model_properties env fuel p c = some res →
          Ev.describeAssetModel c ∈ res.2.1 := by
        intro p c res hr
        obtain ⟨tl, htl⟩ := rmp_trace_head env fuel p c res hr
        rw [htl]
        exact List.mem_cons_self _ _
      refine ⟨rfl, fun he => ?_, fun b hb h hmem => ?_⟩
      · obtain ⟨e, he⟩ := he
        rw [hwc] at he
        exact absurd he (by simp)
      · have hcmem : h.childAssetModelId ∈
            d.assetModelHierarchies.map fun h => h.childAssetModelId :=
          List.mem_map_of_mem _ hmem
        have hdm := rmpChildren_describe_mem
          (fun p c => remove_model_properties env fuel p c) hstep
          (d.assetModelHierarchies.map fun h => h.childAssetModelId)
          (pendAdd pending mid) _ _ hchildren h.childAssetModelId hcmem
        constructor
        · exact List.mem_cons_of_mem _ (List.mem_cons_of_mem _ hdm)
        · show List.Sublist _ (Ev.describeAssetModel mid :: Ev.updateAssetModel mid :: ctr)
          exact (List.Sublist.cons₂ _ (List.singleton_sublist.2 hdm)).cons _

/-- Witness for C6 at `envM1M2`. -/
theorem remove_model_properties_captures_children_first_witness :
    Ev.describeAssetModel "M2" ∈
      [Ev.describeAssetModel "M1", Ev.updateAssetModel "M1", Ev.describeAssetModel "M2"] ∧
    [Ev.updateAssetModel "M1", Ev.describeAssetModel "M2"].Sublist
      [Ev.describeAssetModel "M1", Ev.updateAssetModel "M1", Ev.describeAssetModel "M2"] :=
  (remove_model_properties_captures_children_first envM1M2 1 [] "M1"
      ⟨"Model One", [⟨"M2"⟩]⟩ ["M1"]
      [Ev.describeAssetModel "M1", Ev.updateAssetModel "M1", Ev.describeAssetModel "M2"]
      none rfl rfl).2.2 true rfl ⟨"M2"⟩ (by decide)

/-- C7: `_wait_for_assets_deletion` returns `true` as soon as the
intersection of the listed assets with the recorded pending-asset set
is empty — with an empty intersection on the first poll it returns
`true` after a single `list_assets` call — and after its fixed retry
budget of 12 polls with the intersection still non-empty it returns
`false`. -/
theorem wait_for_assets_deletion_immediate_and_bounded
    (env : DrainEnv) (pAssets : List String) (mid : String) (l0 : List String) :
    (env.listAssetsAt mid 0 = some l0 →
      l0.filter (fun a => pAssets.contains a) = [] →
      wait_for_assets_deletion env pAssets mid = (true, [Ev.listAssets mid])) ∧
    (∀ k lk, k < 12 →
      (∀ j, j < k → ∃ lj, env.listAssetsAt mid j = some lj ∧
        lj.filter (fun a => pAssets.contains a) ≠ []) →
      env.listAssetsAt mid k = some lk →
      lk.filter (fun a => pAssets.contains a) = [] →
      wait_for_assets_deletion env pAssets mid =
        (true, List.replicate (k + 1) (Ev.listAssets mid))) ∧
    ((∀ j, j < 12 → ∃ lj, env.listAssetsAt mid j = some lj ∧
        lj.filter (fun a => pAssets.contains a) ≠ []) →
      wait_for_assets_deletion env pAssets mid =
        (false, List.replicate 12 (Ev.listAssets mid))) := by
  refine ⟨?_, ?_, ?_⟩
  · intro h0 hempty
    have := waitgo_true env pAssets mid 0 12 0 l0 (by omega)
      (fun j hj => absurd hj (by omega)) (by rwa [Nat.zero_add]) hempty
    simpa using this
  · intro k lk hk hpre hlk hempty
    exact waitgo_true env pAssets mid k 12 0 lk hk
      (fun j hj => by rw [Nat.zero_add]; exact hpre j hj)
      (by rwa [Nat.zero_add]) hempty
  · intro hall
    exact waitgo_false env pAssets mid 12 0
      (fun j hj => by rw [Nat.zero_add]; exact hall j hj)

/-- Witness for C7: immediate success with one call, and giving up
after 12 polls. -/
theorem wait_for_assets_deletion_immediate_and_bounded_witness :
    wait_for_assets_deletion envDrainOk [] "M" = (true, [Ev.listAssets "M"]) ∧
    wait_for_assets_deletion envDrainBusy ["A1"] "M" =
      (false, List.replicate 12 (Ev.listAssets "M")) :=
  ⟨(wait_for_assets_deletion_immediate_and_bounded envDrainOk [] "M" []).1 rfl rfl,
   (wait_for_assets_deletion_immediate_and_bounded envDrainBusy ["A1"] "M" []).2.2
     (fun j _ => ⟨["A1"], rfl, by decide⟩)⟩

/-- C3: `delete_asset_models` issues a delete-asset-model call for a
model only when the dependent-assets-gone check reported the recorded
assets gone (`true`); when the bounded retry budget is exhausted
(`false`) it skips deleting that model; and every pending model is
still processed (its describe appears), i.e. iteration continues model
to model with nothing escaping. -/
theorem delete_asset_models_gated_by_wait
    (env : DrainEnv) (pModels pAssets : List String) (mid : String) :
    (Ev.deleteAssetModel mid ∈ delete_asset_models env pModels pAssets →
      (wait_for_assets_deletion env pAssets mid).1 = true) ∧
    ((wait_for_assets_deletion env pAssets mid).1 = false →
      Ev.deleteAssetModel mid ∉ delete_asset_models env pModels pAssets) ∧
    (mid ∈ pModels →
      Ev.describeAssetModel mid ∈ delete_asset_models env pModels pAssets) := by
  have key : Ev.deleteAssetModel mid ∈ delete_asset_models env pModels pAssets →
      (wait_for_assets_deletion env pAssets mid).1 = true := by
    intro hmem
    obtain ⟨m, _, hblock⟩ := List.mem_flatMap.1 hmem
    cases hdm : env.modelName m with
    | none => rw [hdm] at hblock; simp at hblock
    | some nm =>
      rw [hdm] at hblock
      rcases List.mem_cons.1 hblock with h1 | h1
      · exact absurd h1 (by simp)
      · rcases List.mem_append.1 h1 with h2 | h2
        · have := waitgo_events env pAssets m 12 0 _ h2
          exact absurd this (by simp)
        · cases hwb : (wait_for_assets_deletion env pAssets m).1 with
          | false => rw [hwb] at h2; simp at h2
          | true =>
            rw [hwb] at h2
            simp only [if_true, List.mem_singleton] at h2
            injection h2 with hmid
            subst hmid
            exact hwb
  refine ⟨key, fun hf hmem => ?_, fun hp => ?_⟩
  · have := key hmem
    rw [hf] at this
    exact Bool.false_ne_true this
  · refine List.mem_flatMap.2 ⟨mid, List.mem_dedup.2 hp, ?_⟩
    cases hdm : env.modelName mid with
    | none => exact List.mem_singleton.2 rfl
    | some nm => exact List.mem_cons_self _ _

/-- Witness for C3 at a concrete drain environment. -/
theorem delete_asset_models_gated_by_wait_witness :
    (wait_for_assets_deletion envDrainOk [] "M").1 = true ∧
    Ev.describeAssetModel "M" ∈ delete_asset_models envDrainOk ["M"] [] :=
  ⟨(delete_asset_models_gated_by_wait envDrainOk ["M"] [] "M").1 (by decide),
   (delete_asset_models_gated_by_wait envDrainOk ["M"] [] "M").2.2 (by decide)⟩

/-- C9: both pending-deletion collections drain as deduplicated sets:
an asset id recorded any number of times yields exactly one delete
call when its drain-time describe finds it and none when it does not
(the not-found outcome suppresses the delete), the delete is preceded
by that describe, and a model id is deleted at most once, never when
its describe is not-found. -/
theorem drain_sets_dedup_and_describe_gated
    (env : DrainEnv) (pA pM : List String) (aid mid : String)
    (ha : aid ∈ pA) (hm : mid ∈ pM) :
    ((delete_assets env pA).count (Ev.deleteAsset aid) =
      if (env.assetName aid).isSome then 1 else 0) ∧
    (env.assetName aid = none → Ev.deleteAsset aid ∉ delete_assets env pA) ∧
    ((env.assetName aid).isSome →
      [Ev.describeAsset aid, Ev.deleteAsset aid].Sublist (delete_assets env pA)) ∧
    ((delete_asset_models env pM pA).count (Ev.deleteAssetModel mid) ≤ 1) ∧
    (env.modelName mid = none →
      Ev.deleteAssetModel mid ∉ delete_asset_models env pM pA) := by
  have hotherA : ∀ m ∈ pA.dedup, m ≠ aid →
      Ev.deleteAsset aid ∉ (match env.assetName m with
        | none => [Ev.describeAsset m]
        | some _ => [Ev.describeAsset m, Ev.deleteAsset m]) := by
    intro m _ hne hmem
    cases hdm : env.assetName m with
    | none => rw [hdm] at hmem; simp at hmem
    | some nm =>
      rw [hdm] at hmem
      rcases List.mem_cons.1 hmem with h1 | h1
      · exact absurd h1 (by simp)
      · rcases List.mem_singleton.1 h1 with h2
        injection h2 with haid
        exact hne haid.symm
  have hcntA : (delete_assets env pA).count (Ev.deleteAsset aid) =
      ((match env.assetName aid with
        | none => [Ev.describeAsset aid]
        | some _ => [Ev.describeAsset aid, Ev.deleteAsset aid]) : List Ev).count
        (Ev.deleteAsset aid) :=
    count_flatMap_single _ _ aid pA.dedup (List.nodup_dedup pA)
      (List.mem_dedup.2 ha) hotherA
  have hotherM : ∀ m ∈ pM.dedup, m ≠ mid →
      Ev.deleteAssetModel mid ∉ (match env.modelName m with
        | none => [Ev.describeAssetModel m]
        | some _ =>
          Ev.describeAssetModel m ::
            ((wait_for_assets_deletion env pA m).2 ++
              if (wait_for_assets_deletion env pA m).1 then
                [Ev.deleteAssetModel m] else []) : List Ev) := by
    intro m _ hne hmem
    cases hdm : env.modelName m with
    | none => rw [hdm] at hmem; simp at hmem
    | some nm =>
      rw [hdm] at hmem
      rcases List.mem_cons.1 hmem with h1 | h1
      · exact absurd h1 (by simp)
      · rcases List.mem_append.1 h1 with h2 | h2
        · have := waitgo_events env pA m 12 0 _ h2
          exact absurd this (by simp)
        · cases hwb : (wait_for_assets_deletion env pA m).1 with
          | false => rw [hwb] at h2; simp at h2
          | true =>
            rw [hwb] at h2
            simp only [if_true, List.mem_singleton] at h2
            injection h2 with hmid
            exact hne hmid.symm
  have hcntM : (delete_asset_models env pM pA).count (Ev.deleteAssetModel mid) =
      ((match env.modelName mid with
        | none => [Ev.describeAssetModel mid]
        | some _ =>
          Ev.describeAssetModel mid ::
            ((wait_for_assets_deletion env pA mid).2 ++
              if (wait_for_assets_deletion env pA mid).1 then
                [Ev.deleteAssetModel mid] else []) : List Ev)).count
        (Ev.deleteAssetModel mid) :=
    count_flatMap_single _ _ mid pM.dedup (List.nodup_dedup pM)
      (List.mem_dedup.2 hm) hotherM
  refine ⟨?_, ?_, ?_, ?_, ?_⟩
  · rw [hcntA]
    cases hA : env.assetName aid with
    | none => simp
    | some nm => simp [List.count_cons]
  · intro hnone
    rw [← List.count_eq_zero (l := delete_assets env pA), hcntA, hnone]
    simp
  · intro hsome
    obtain ⟨nm, hnm⟩ := Option.isSome_iff_exists.1 hsome
    have hsub := sublist_flatMap_of_mem
      (fun asset_id => (match env.assetName asset_id with
        | none => [Ev.describeAsset asset_id]
        | some _ => [Ev.describeAsset asset_id, Ev.deleteAsset asset_id] : List Ev))
      pA.dedup aid (List.mem_dedup.2 ha)
    simp only [hnm] at hsub
    exact hsub
  · rw [hcntM]
    cases hM : env.modelName mid with
    | none => simp
    | some nm =>
      have hw2 : Ev.deleteAssetModel mid ∉ (wait_for_assets_deletion env pA mid).2 := by
        intro hmem
        have := waitgo_events env pA mid 12 0 _ hmem
        exact absurd this (by simp)
      rw [List.count_cons, List.count_append, List.count_eq_zero_of_not_mem hw2]
      cases hwb : (wait_for_assets_deletion env pA mid).1 with
      | false => simp
      | true => simp [List.count_cons]
  · intro hnone
    rw [← List.count_eq_zero (l := delete_asset_models env pM pA), hcntM, hnone]
    simp

/-- Witness for C9: asset `A` recorded twice drains with exactly one
delete, preceded by its describe; model `M` recorded twice is deleted
at most once. -/
theorem drain_sets_dedup_and_describe_gated_witness :
    (delete_assets envDrainW ["A", "A"]).count (Ev.deleteAsset "A") = 1 ∧
    [Ev.describeAsset "A", Ev.deleteAsset "A"].Sublist (delete_assets envDrainW ["A", "A"]) ∧
    (delete_asset_models envDrainW ["M", "M"] ["A", "A"]).count
      (Ev.deleteAssetModel "M") ≤ 1 := by
  have h := drain_sets_dedup_and_describe_gated envDrainW ["A", "A"] ["M", "M"] "A" "M"
    (by decide) (by decide)
  refine ⟨?_, h.2.2.1 (by decide), h.2.2.2.1⟩
  have h1 := h.1
  rwa [show (envDrainW.assetName "A").isSome = true from rfl, if_pos rfl] at h1

/-- C8 (code bug in `delete_data_streams`): deletion is keyed on
Python substring containment (`DATA_STREAM_PREFIX in alias`,
line 301), not on a prefix match as the constant's name and the log
message at line 306 ("data streams with prefix") state: an alias that
contains the configured path only as an interior substring is deleted
even though the path is not a prefix of it; aliases with the path as a
true prefix are deleted and unrelated aliases are not. -/
theorem delete_data_streams_substring_not_prefix_bug :
    delete_data_streams ["x/Tag Providers/AD/default/UR1"] =
      [Ev.deleteTimeSeries "x/Tag Providers/AD/default/UR1"] ∧
    DATA_STREAM_PATH.data.isPrefixOf "x/Tag Providers/AD/default/UR1".data = false ∧
    delete_data_streams ["/Tag Providers/AD/default/UR5", "/other/stream"] =
      [Ev.deleteTimeSeries "/Tag Providers/AD/default/UR5"] := by
  refine ⟨by decide, by decide, by decide⟩

/-- C4 counterexample: in the concrete scenario (root `A` with
children `B`, `C`; `B` with child `D`) the walk issues exactly 3
disassociate calls — one per edge `A→B`, `A→C`, `B→D` — not 4 as the
claim states. -/
theorem disassociate_scenario_three_calls_cex :
    disassocCalls (disassociate_all_assets treeABCD) = 3 ∧
    disassocCalls (disassociate_all_assets treeABCD) ≠ 4 :=
  ⟨by decide, by decide⟩

/-- C4 (amended): for a finite tree with distinct node ids (each node
reachable by exactly one path), of depth at least 2 and with
branching, the walk records every reachable node exactly once and the
final pending-asset collection size equals the number of distinct
nodes; in the concrete scenario the pending collection is
`A,B,D,C` — the set `{A,B,C,D}` — and exactly 3 (not 4) disassociate
calls are issued. -/
theorem disassociate_visits_each_node_once
    (t : ATree) (hn : (ATree.nodeIds t).Nodup)
    (_hdepth : 2 ≤ ATree.depth t) (_hbr : ATree.branches t = true) :
    (∀ i ∈ ATree.nodeIds t,
      (recordedAssets (disassociate_all_assets t)).count i = 1) ∧
    (recordedAssets (disassociate_all_assets t)).length = (ATree.nodeIds t).length ∧
    recordedAssets (disassociate_all_assets treeABCD) = ["A", "B", "D", "C"] ∧
    disassocCalls (disassociate_all_assets treeABCD) = 3 := by
  refine ⟨?_, ?_, by decide, by decide⟩
  · intro i hi
    rw [recordedAssets_walk t]
    exact List.count_eq_one_of_mem hn hi
  · rw [recordedAssets_walk t]

/-- Witness for C4's amended theorem at the scenario tree. -/
theorem disassociate_visits_each_node_once_witness :
    (recordedAssets (disassociate_all_assets treeABCD)).count "A" = 1 ∧
    (recordedAssets (disassociate_all_assets treeABCD)).length =
      (ATree.nodeIds treeABCD).length := by
  have h := disassociate_visits_each_node_once treeABCD (by decide) (by decide) (by decide)
  exact ⟨h.1 "A" (by decide), h.2.1⟩

/-- C5: in every walk the disassociate call cutting the edge to a
child precedes the record event that begins the child's recursive
visit; disassociate calls happen only for actual edges (so a slot
listing zero children causes none); and an asset with zero hierarchies
or zero children returns right after being recorded and described,
with no disassociate call of its own. -/
theorem disassociate_order_and_leaves
    (t : ATree) (i nm : String) (hs : HierList) (p h c : String) :
    ((p, h, c) ∈ ATree.edges t →
      [Ev.disassociateAssets p h c, Ev.recordAsset c].Sublist
        (disassociate_all_assets t)) ∧
    (Ev.disassociateAssets p h c ∈ disassociate_all_assets t →
      (p, h, c) ∈ ATree.edges t) ∧
    (hiersChildCount hs = 0 →
      disassociate_all_assets (ATree.node i nm hs) =
        Ev.recordAsset i :: Ev.describeAsset i :: hierEvents i hs ∧
      Ev.disassociateAssets p h c ∉ hierEvents i hs) := by
  refine ⟨fun hm => edge_sublist_walk t p h c hm,
    fun hm => walk_disassoc_mem_edges t p h c hm,
    fun hz => ⟨?_, hierEvents_childfree i hs hz p h c⟩⟩
  show Ev.recordAsset i :: Ev.describeAsset i :: (hierEvents i hs ++ walkHiers hs) = _
  rw [walkHiers_childfree hs hz, List.append_nil]

/-- Witness for C5: a concrete ordered pair in the scenario walk, the
edge for a concrete disassociate event, and a leaf's trace. -/
theorem disassociate_order_and_leaves_witness :
    [Ev.disassociateAssets "A" "H1" "B", Ev.recordAsset "B"].Sublist
      (disassociate_all_assets treeABCD) ∧
    ("A", "H1", "B") ∈ ATree.edges treeABCD ∧
    disassociate_all_assets (ATree.node "L" "Leaf" HierList.nil) =
      [Ev.recordAsset "L", Ev.describeAsset "L"] := by
  have h := disassociate_order_and_leaves treeABCD "L" "Leaf" HierList.nil "A" "H1" "B"
  refine ⟨h.1 (by decide), h.2.1 (by decide), ?_⟩
  have h3 := (h.2.2 rfl).1
  simpa [hierEvents] using h3

/-- C2 counterexample: cleaning up a root whose resources were already
fully removed (every lookup not-found) does not complete without
raising — the raw root-resolution describe raises the not-found
exception, which propagates out of `cleanup`. -/
theorem cleanup_missing_root_cex :
    cleanup envGone 1 "Workshop_Corporate_AnyCompany_AD" =
      some (Except.error
        (PyExn.resourceNotFound "externalId:Workshop_Corporate_AnyCompany_AD")) := rfl

/-- C2 (amended): invoking the full cleanup against a root external
identifier that no longer resolves raises: `_get_asset_id_from_external_id`
calls `describe_asset` with no not-found handler, so the
`ResourceNotFoundException` propagates out of `cleanup` to `main`
(which logs and re-raises); the run does not complete. -/
theorem cleanup_missing_root_raises (env : CleanupEnv) (fuel : Nat) (ext : String)
    (h : env.externalAsset ext = none) :
    cleanup env fuel ext =
      some (Except.error (PyExn.resourceNotFound ("externalId:" ++ ext))) := by
  simp only [cleanup, get_asset_id_from_external_id, h]

/-- Witness for C2's amended theorem at the all-gone environment. -/
theorem cleanup_missing_root_raises_witness :
    cleanup envGone 1 "Root" =
      some (Except.error (PyExn.resourceNotFound ("externalId:" ++ "Root"))) :=
  cleanup_missing_root_raises envGone 1 "Root" rfl
